import Mathlib

/-!
Shallow embedding of the registration-analytics and auth-gating logic of the
CA-pujari web application, together with proofs of the specified properties.

The authoritative source is `src/app/admin/analytics/page.tsx` (the function
`computeCounts`, the `maxCourse`/`pct` presenter computation and the
`courses.map` rendering), `src/app/about/page.tsx` (`WebinarBookButton`),
`src/app/login/page.tsx` (`handleLogin`) and `src/app/signup/page.tsx`
(`handleSignup`).

JavaScript idioms are embedded explicitly:
  * `undefined`/missing fields are `Option.none`;
  * `String(itemId)` coercion maps a missing id to the string "undefined";
  * numeric truthiness (`0`, `null`, `NaN` are falsy) is modelled on
    `Option Int`, where `none` stands for both `null` and `NaN`;
  * the external `new Date(s).getTime()` string parser is an explicit
    parameter `parse : String → Option Int` (`none` models `NaN`);
  * IEEE-double arithmetic in `Math.round((count / max) * 100)` is modelled
    by exact rational rounding over `Nat`.
-/

namespace CAPujari

/-- The `createdAt` field of a registration document as it may arrive from
the database: absent, a Firestore-timestamp-like object carrying a numeric
`seconds` field, a plain number, or a string. -/
inductive CreatedAt where
  | absent
  | structured (seconds : Int)
  | num (n : Int)
  | str (s : String)
deriving DecidableEq, Repr

/-- One registration event `{ type, itemId, createdAt }`.
`itemId = none` models a document whose `itemId` field is missing. -/
structure Registration where
  type : String
  itemId : Option String
  createdAt : CreatedAt
deriving DecidableEq, Repr

/-- The per-entity accumulator `{ count, last }` of `computeCounts`. -/
structure Stat where
  count : Nat
  last : Option Int
deriving DecidableEq, Repr

/-- The default `{ count: 0, last: null }` used by `computeCounts` and by
callers looking up an absent entity. -/
def defaultStat : Stat := ⟨0, none⟩

/-- JS `String(itemId)`: a missing (`undefined`) id coerces to the string
`"undefined"` (analytics page, line 55). -/
def coerceId : Option String → String
  | none => "undefined"
  | some s => s

/-- Line 58 of the analytics page:
`reg.createdAt?.seconds ? reg.createdAt.seconds * 1000
 : reg.createdAt ? new Date(reg.createdAt).getTime() : null`.
`parse` models `new Date(string).getTime()` with `none` for `NaN`.
A structured timestamp with `seconds = 0` is falsy, so it falls through to
`new Date(object).getTime()`, which is `NaN`, hence `none`.  A numeric
`createdAt` is its own epoch value (`new Date(n).getTime() = n`) unless it
is `0`, which is falsy and yields `null`.  The empty string is falsy and
yields `null`. -/
def normalizeTs (parse : String → Option Int) : CreatedAt → Option Int
  | CreatedAt.absent => none
  | CreatedAt.structured s => if s ≠ 0 then some (s * 1000) else none
  | CreatedAt.num n => if n ≠ 0 then some n else none
  | CreatedAt.str s => if s ≠ "" then parse s else none

/-- Line 59 of the analytics page:
`if (ts && (!existing.last || ts > existing.last)) existing.last = ts`.
`ts` is truthy iff it is a non-`NaN` nonzero number; `!existing.last` is
truthy when `last` is `null` or `0`. -/
def updateLast (last ts : Option Int) : Option Int :=
  match ts with
  | none => last
  | some v =>
    if v ≠ 0 then
      match last with
      | none => some v
      | some l => if l = 0 then some v else if v > l then some v else some l
    else last

/-- A JS `Map<string, Stat>` as an insertion-ordered association list. -/
abbrev StatMap := List (String × Stat)

/-- JS `map.get(k)` on the association list. -/
def mapGet (m : StatMap) (k : String) : Option Stat :=
  match m with
  | [] => none
  | (kv : String × Stat) :: rest =>
    if kv.1 = k then some kv.2 else mapGet rest k

/-- JS `map.set(k, v)`: replace in place if the key exists, else append,
matching JS `Map` insertion-order semantics. -/
def mapSet (m : StatMap) (k : String) (v : Stat) : StatMap :=
  match m with
  | [] => [(k, v)]
  | (kv : String × Stat) :: rest =>
    if kv.1 = k then (k, v) :: rest else kv :: mapSet rest k v

/-- The body of the `registrations.forEach` callback in `computeCounts`
(analytics page, lines 53–61), acting on the accumulated map. -/
def step (parse : String → Option Int) (ty : String) (m : StatMap)
    (reg : Registration) : StatMap :=
  if reg.type = ty then
    let id := coerceId reg.itemId
    let existing := (mapGet m id).getD defaultStat
    let ts := normalizeTs parse reg.createdAt
    mapSet m id ⟨existing.count + 1, updateLast existing.last ts⟩
  else m

/-- The function `computeCounts(type)` of the analytics page (lines 51–63): a fold of
the `forEach` body over the registration snapshot, starting from an empty
map. -/
def computeCounts (parse : String → Option Int) (ty : String)
    (regs : List Registration) : StatMap :=
  regs.foldl (step parse ty) []

/-- Caller-side lookup `counts.get(id) || { count: 0, last: null }`
(analytics page, lines 160 and 189). -/
def lookupStat (m : StatMap) (k : String) : Stat :=
  (mapGet m k).getD defaultStat

/-- The expression `Math.max(1, ...Array.from(counts.values()).map(v => v.count))`
(analytics page, lines 68–69). -/
def maxCount (m : StatMap) : Nat :=
  (m.map (fun p => p.2.count)).foldl Nat.max 1

/-- Exact-arithmetic model of `Math.round((c / m) * 100)` for naturals:
round-half-up of the rational `100 * c / m`. -/
def jsRound100 (c m : Nat) : Nat := (200 * c + m) / (2 * m)

/-- The per-entity percentage `Math.round((stat.count / maxCourse) * 100)`
(analytics page, line 161). -/
def pct (m : StatMap) (k : String) : Nat :=
  jsRound100 (lookupStat m k).count (maxCount m)

/-- A catalog entry (course or webinar) as used by the presenter. -/
structure Entity where
  id : String
  title : String
deriving DecidableEq, Repr

/-- One row of the chart data `{ name, count }`. -/
structure ChartRow where
  name : String
  count : Nat
deriving DecidableEq, Repr

/-- The chart series `courses.map` of `name`/`count` pairs, where `count` is `counts.get(c.id)?.count || 0`
(analytics page, line 81): the chart series in catalog order. -/
def courseData (counts : StatMap) (catalog : List Entity) : List ChartRow :=
  catalog.map (fun c => ⟨c.title, ((mapGet counts c.id).map Stat.count).getD 0⟩)

/-- The per-entity rows of the list section (analytics page, lines 159–161):
title, defaulted stat and percentage, produced by mapping over the catalog. -/
def renderRows (counts : StatMap) (maxC : Nat) (catalog : List Entity) :
    List (String × Stat × Nat) :=
  catalog.map (fun c =>
    (c.title, lookupStat counts c.id, jsRound100 (lookupStat counts c.id).count maxC))

/-- Total registration count over all entries of the output map. -/
def sumCounts (m : StatMap) : Nat := (m.map (fun p => p.2.count)).sum

/-- The event matches target kind `ty` and (coerced) entity key `k`. -/
def matchesKey (ty k : String) (r : Registration) : Bool :=
  r.type == ty && coerceId r.itemId == k

/-- The maximum of a list of integers (`none` on the empty list); the
specification-side description of "the maximum `createdAt`". -/
def listMax : List Int → Option Int
  | [] => none
  | v :: vs => some (vs.foldl max v)

/-- The nonzero values among a list of nullable numbers: exactly those that
survive the truthiness guard of `updateLast`. -/
def nzList (ts : List (Option Int)) : List Int :=
  (ts.filterMap id).filter (fun v => decide (v ≠ 0))

/-- A trivial parser for tests: every string is unparseable (`NaN`). -/
def parse0 : String → Option Int := fun _ => none

/-- The effect of one matching event on one entity's accumulator. -/
def stepStat (parse : String → Option Int) (s : Stat) (r : Registration) : Stat :=
  ⟨s.count + 1, updateLast s.last (normalizeTs parse r.createdAt)⟩

/-- The effect of one matching event on one entity's nullable map entry,
starting from the defaulted accumulator. -/
def stepK (parse : String → Option Int) (s : Option Stat) (r : Registration) :
    Option Stat :=
  some (stepStat parse (s.getD defaultStat) r)

/-- Maximum of two nullable integers, `none` being the identity. -/
def omax : Option Int → Option Int → Option Int
  | none, b => b
  | some a, none => some a
  | some a, some b => some (max a b)

/-- Order on nullable timestamps: `none` is below everything, numbers
compare as integers ("only increases or leaves unchanged"). -/
def optLe : Option Int → Option Int → Bool
  | none, _ => true
  | some _, none => false
  | some a, some b => decide (a ≤ b)

/-! URL plumbing for the gated book-seat flow.  `encodeURIComponent`,
`URLSearchParams` and `window.location.search` are browser primitives; they
are embedded here by their standard semantics (percent-encoding of UTF-8
bytes of all characters outside the unreserved set, `+`-as-space and
percent-decoding on lookup, splitting the query on `&` and the first `=`).
Multi-byte percent sequences are decoded byte-per-byte, which agrees with
the real decoder on ASCII data — the only data these pages produce. -/

/-- The characters `encodeURIComponent` leaves intact:
`A–Z a–z 0–9 - _ . ! ~ * ' ( )`. -/
def unreservedChar (c : Char) : Bool :=
  decide ((48 ≤ c.toNat ∧ c.toNat ≤ 57) ∨ (65 ≤ c.toNat ∧ c.toNat ≤ 90) ∨
    (97 ≤ c.toNat ∧ c.toNat ≤ 122) ∨
    c.toNat ∈ [45, 95, 46, 33, 126, 42, 39, 40, 41])

/-- Uppercase hexadecimal digit for `n < 16`. -/
def hexDigit (n : Nat) : Char :=
  if n < 10 then Char.ofNat (48 + n) else Char.ofNat (55 + n)

/-- The numeric value of a hexadecimal digit character. -/
def hexVal (c : Char) : Option Nat :=
  if 48 ≤ c.toNat ∧ c.toNat ≤ 57 then some (c.toNat - 48)
  else if 65 ≤ c.toNat ∧ c.toNat ≤ 70 then some (c.toNat - 55)
  else if 97 ≤ c.toNat ∧ c.toNat ≤ 102 then some (c.toNat - 87)
  else none

/-- Percent escape `%HH` of one byte. -/
def pctByte (b : Nat) : List Char := ['%', hexDigit (b / 16), hexDigit (b % 16)]

/-- UTF-8 bytes of a code point (standard encoding). -/
def utf8Bytes (n : Nat) : List Nat :=
  if n < 128 then [n]
  else if n < 2048 then [192 + n / 64, 128 + n % 64]
  else if n < 65536 then [224 + n / 4096, 128 + n / 64 % 64, 128 + n % 64]
  else [240 + n / 262144, 128 + n / 4096 % 64, 128 + n / 64 % 64, 128 + n % 64]

/-- JS `encodeURIComponent` on one character. -/
def encChar (c : Char) : List Char :=
  if unreservedChar c then [c] else ((utf8Bytes c.toNat).map pctByte).flatten

/-- JS `encodeURIComponent` on a character list. -/
def encodeList : List Char → List Char
  | [] => []
  | c :: rest => encChar c ++ encodeList rest

/-- JS `encodeURIComponent`. -/
def encodeURIComponent (s : String) : String := String.mk (encodeList s.data)

/-- Decoding of a `URLSearchParams` value: `+` becomes a space, `%HH` becomes the
byte `HH`, malformed escapes pass through. -/
def decodePercent : List Char → List Char
  | [] => []
  | '%' :: h1 :: h2 :: rest =>
    match hexVal h1, hexVal h2 with
    | some a, some b => Char.ofNat (16 * a + b) :: decodePercent rest
    | _, _ => '%' :: decodePercent (h1 :: h2 :: rest)
  | '+' :: rest => ' ' :: decodePercent rest
  | c :: rest => c :: decodePercent rest

/-- Split before the first occurrence of `sep`; the second component is
`none` when `sep` does not occur, else the remainder after it. -/
def breakOn (sep : Char) : List Char → List Char × Option (List Char)
  | [] => ([], none)
  | c :: rest =>
    if c = sep then ([], some rest)
    else
      let p := breakOn sep rest
      (c :: p.1, p.2)

/-- Split a list on every occurrence of `sep`. -/
def splitSep (sep : Char) : List Char → List (List Char)
  | [] => [[]]
  | c :: rest =>
    match splitSep sep rest with
    | [] => [[c]]
    | p :: ps => if c = sep then [] :: p :: ps else (c :: p) :: ps

/-- One `name=value` pair of a query string (value empty when no `=`). -/
def paramKV (p : List Char) : List Char × List Char :=
  match breakOn '=' p with
  | (n, none) => (n, [])
  | (n, some v) => (n, v)

/-- JS `new URLSearchParams(search).get(key)`: first pair whose decoded name is
`key`, with decoded value. -/
def getParam (search key : List Char) : Option (List Char) :=
  (splitSep '&' search).findSome? (fun p =>
    let kv := paramKV p
    if decodePercent kv.1 = key then some (decodePercent kv.2) else none)

/-- The query part of a URL: everything after the first `?`
(`window.location.search` without its leading `?`). -/
def searchOf (href : String) : List Char := ((breakOn '?' href.data).2).getD []

/-- The component `WebinarBookButton` (about page, lines 287–288): with a session the link
is `/webinars/book/ID`; without one it is
`/login?redirect=encodeURIComponent(/webinars?book=ID)`. -/
def webinarBookHref (user : Bool) (id : String) : String :=
  if user then "/webinars/book/" ++ id
  else "/login?redirect=" ++ encodeURIComponent ("/webinars?book=" ++ id)

/-- Observable outcome of a login/signup form submission: a navigation, an
error rendered through the page's error state, or an exception escaping the
handler with nothing rendered. -/
inductive AuthOutcome where
  | navigated (path : String)
  | errorShown (msg : String)
  | unhandled (msg : String)
deriving DecidableEq, Repr

/-- The handler `handleLogin` (login page, lines 30–42): `signInWithEmailAndPassword`
inside `try { … } finally { … }` with no `catch` and no error state — a
rejection escapes unhandled; on success the page navigates to
`params.get("redirect") || "/"`. -/
def handleLogin (signInResult : Except String Unit) (search : List Char) :
    AuthOutcome :=
  match signInResult with
  | Except.error e => AuthOutcome.unhandled e
  | Except.ok _ =>
    AuthOutcome.navigated (String.mk (match getParam search ("redirect".data) with
      | none => "/".data
      | some v => if v = [] then "/".data else v))

/-- The handler `handleSignup` (signup page, lines 28–59): failures are caught and the
message is stored in the rendered `error` state; on success the page
navigates to the `redirect` param if truthy, else `/courses/ID` if a
`course` param is truthy, else `/`. -/
def handleSignup (res : Except String Unit)
    (redirectParam course : Option String) : AuthOutcome :=
  match res with
  | Except.error e => AuthOutcome.errorShown e
  | Except.ok _ =>
    if redirectParam.getD "" ≠ "" then AuthOutcome.navigated (redirectParam.getD "")
    else if course.getD "" ≠ "" then
      AuthOutcome.navigated ("/courses/" ++ course.getD "")
    else AuthOutcome.navigated "/"

/-- A registration document whose `itemId` field is missing. -/
def regMissing : Registration := ⟨"course", none, CreatedAt.absent⟩

/-- A registration with missing `itemId` whose string timestamp parses to
epoch `0`. -/
def regZeroTs : Registration :=
  ⟨"course", none, CreatedAt.str "1970-01-01T00:00:00Z"⟩

/-- A parser resolving exactly the epoch-zero ISO string, to the value `0`,
as `new Date("1970-01-01T00:00:00Z").getTime()` does. -/
def parseEpoch : String → Option Int :=
  fun s => if s = "1970-01-01T00:00:00Z" then some 0 else none

/-- A course registration for entity `A` at epoch-ms `5`. -/
def regA5 : Registration := ⟨"course", some "A", CreatedAt.num 5⟩

/-- A course registration for entity `A` at epoch-ms `3`. -/
def regA3 : Registration := ⟨"course", some "A", CreatedAt.num 3⟩

/-- A course registration for entity `A` with numeric `createdAt` `0`. -/
def regA0 : Registration := ⟨"course", some "A", CreatedAt.num 0⟩

/-! ### Association-list map lemmas -/

theorem mapGet_mapSet_self (m : StatMap) (k : String) (v : Stat) :
    mapGet (mapSet m k v) k = some v := by
  induction m with
  | nil => simp [mapSet, mapGet]
  | cons kv rest ih =>
    by_cases h : kv.1 = k
    · simp [mapSet, mapGet, h]
    · simp [mapSet, mapGet, h, ih]

theorem mapGet_mapSet_ne (m : StatMap) (k k' : String) (v : Stat)
    (h : k' ≠ k) : mapGet (mapSet m k' v) k = mapGet m k := by
  induction m with
  | nil => simp [mapSet, mapGet, h]
  | cons kv rest ih =>
    by_cases hk : kv.1 = k'
    · simp [mapSet, mapGet, hk, h, ih]
    · by_cases hk2 : kv.1 = k
      · simp [mapSet, mapGet, hk, hk2, Ne.symm h]
      · simp [mapSet, mapGet, hk, hk2, ih]

theorem sumCounts_cons (p : String × Stat) (m : StatMap) :
    sumCounts (p :: m) = p.2.count + sumCounts m := by
  simp [sumCounts]

theorem sumCounts_mapSet (m : StatMap) (k : String) (l : Option Int) :
    sumCounts (mapSet m k ⟨(lookupStat m k).count + 1, l⟩) = sumCounts m + 1 := by
  induction m with
  | nil => simp [mapSet, sumCounts, lookupStat, mapGet, defaultStat]
  | cons kv rest ih =>
    by_cases h : kv.1 = k
    · simp only [mapSet, if_pos h, sumCounts_cons, lookupStat, mapGet, if_pos h,
        Option.getD_some]
      omega
    · simp only [mapSet, if_neg h, sumCounts_cons, lookupStat, mapGet, if_neg h]
      have := ih
      simp only [lookupStat] at this
      omega

/-! ### One step of the aggregation fold -/

theorem step_of_ne (parse : String → Option Int) (ty : String) (m : StatMap)
    (r : Registration) (h : ¬ r.type = ty) : step parse ty m r = m := by
  simp [step, h]

theorem step_of_match (parse : String → Option Int) (ty : String) (m : StatMap)
    (r : Registration) (h : r.type = ty) :
    step parse ty m r
      = mapSet m (coerceId r.itemId)
          (stepStat parse (lookupStat m (coerceId r.itemId)) r) := by
  simp [step, h, stepStat, lookupStat]

theorem sumCounts_step (parse : String → Option Int) (ty : String)
    (m : StatMap) (r : Registration) :
    sumCounts (step parse ty m r)
      = sumCounts m + (if r.type = ty then 1 else 0) := by
  by_cases h : r.type = ty
  · rw [step_of_match parse ty m r h, if_pos h]
    exact sumCounts_mapSet m (coerceId r.itemId) _
  · rw [step_of_ne parse ty m r h, if_neg h]
    omega

theorem sumCounts_foldl (parse : String → Option Int) (ty : String)
    (regs : List Registration) :
    ∀ m : StatMap,
      sumCounts (List.foldl (step parse ty) m regs)
        = sumCounts m + (regs.filter (fun r => r.type == ty)).length := by
  induction regs with
  | nil => intro m; simp
  | cons r regs ih =>
    intro m
    simp only [List.foldl_cons]
    rw [ih (step parse ty m r), sumCounts_step]
    by_cases h : r.type = ty
    · simp [List.filter_cons, h]
      omega
    · simp [List.filter_cons, h]

/-! ### Per-key characterization of the aggregation fold -/

theorem mapGet_foldl (parse : String → Option Int) (ty : String)
    (regs : List Registration) (k : String) :
    ∀ m : StatMap,
      mapGet (List.foldl (step parse ty) m regs) k
        = List.foldl (stepK parse) (mapGet m k)
            (regs.filter (matchesKey ty k)) := by
  induction regs with
  | nil => intro m; rfl
  | cons r regs ih =>
    intro m
    simp only [List.foldl_cons]
    rw [ih (step parse ty m r)]
    by_cases hty : r.type = ty
    · by_cases hk : coerceId r.itemId = k
      · have hm : matchesKey ty k r = true := by
          simp [matchesKey, hty, hk]
        rw [step_of_match parse ty m r hty, hk, mapGet_mapSet_self]
        simp only [List.filter_cons, hm, if_pos, List.foldl_cons]
        rfl
      · have hm : ¬ matchesKey ty k r = true := by
          simp [matchesKey, hty, hk]
        rw [step_of_match parse ty m r hty, mapGet_mapSet_ne m k _ _ hk]
        simp [List.filter_cons, hm]
    · have hm : ¬ matchesKey ty k r = true := by
        simp [matchesKey, hty]
      rw [step_of_ne parse ty m r hty]
      simp [List.filter_cons, hm]

theorem foldl_stepK_some (parse : String → Option Int)
    (l : List Registration) :
    ∀ s : Stat,
      List.foldl (stepK parse) (some s) l
        = some ⟨s.count + l.length,
            List.foldl updateLast s.last
              (l.map (fun r => normalizeTs parse r.createdAt))⟩ := by
  induction l with
  | nil => intro s; simp
  | cons r l ih =>
    intro s
    simp only [List.foldl_cons, List.map_cons]
    rw [show stepK parse (some s) r = some (stepStat parse s r) from rfl,
      ih (stepStat parse s r)]
    simp only [stepStat]
    congr 1
    simp only [Stat.mk.injEq, List.length_cons]
    exact ⟨by omega, trivial⟩

theorem foldl_stepK_none (parse : String → Option Int)
    (l : List Registration) (h : l ≠ []) :
    List.foldl (stepK parse) none l
      = some ⟨l.length,
          List.foldl updateLast none
            (l.map (fun r => normalizeTs parse r.createdAt))⟩ := by
  match l with
  | [] => exact absurd rfl h
  | r :: l =>
    simp only [List.foldl_cons, List.map_cons]
    rw [show stepK parse none r = some (stepStat parse defaultStat r) from rfl,
      foldl_stepK_some parse l (stepStat parse defaultStat r)]
    simp only [stepStat, defaultStat, List.length_cons, Stat.mk.injEq]
    have : 0 + 1 + l.length = l.length + 1 := by omega
    rw [this]

/-! ### Maximum of a list and the `updateLast` fold -/

theorem foldl_max_eq_listMax (l : List Int) :
    ∀ v : Int,
      l.foldl max v
        = match listMax l with
          | none => v
          | some m => max v m := by
  induction l with
  | nil => intro v; simp [listMax]
  | cons a l ih =>
    intro v
    simp only [List.foldl_cons, listMax]
    rw [ih (max v a), ih a]
    cases h : listMax l with
    | none => simp
    | some m => simp [max_assoc]

theorem listMax_cons (a : Int) (l : List Int) :
    listMax (a :: l) = omax (some a) (listMax l) := by
  show some (l.foldl max a) = omax (some a) (listMax l)
  rw [foldl_max_eq_listMax]
  cases h : listMax l <;> rfl

theorem omax_assoc (a b c : Option Int) :
    omax (omax a b) c = omax a (omax b c) := by
  cases a <;> cases b <;> cases c <;> simp [omax, max_assoc]

theorem nzList_cons_none (ts : List (Option Int)) :
    nzList (none :: ts) = nzList ts := by
  simp [nzList]

theorem nzList_cons_some (v : Int) (ts : List (Option Int)) :
    nzList (some v :: ts)
      = if v ≠ 0 then v :: nzList ts else nzList ts := by
  by_cases h : v = 0 <;> simp [nzList, h, List.filter_cons]

theorem updateLast_none_ts (l : Option Int) : updateLast l none = l := rfl

theorem updateLast_zero (l : Option Int) : updateLast l (some 0) = l := by
  simp [updateLast]

theorem updateLast_ne_zero (l t : Option Int) (hl : l ≠ some 0) :
    updateLast l t ≠ some 0 := by
  cases t with
  | none => exact hl
  | some v =>
    by_cases hv : v = 0
    · subst hv; rw [updateLast_zero]; exact hl
    · cases l with
      | none => simp [updateLast, hv]
      | some a =>
        simp only [updateLast, if_pos hv]
        by_cases ha : a = 0
        · simp [ha, hv]
        · by_cases hgt : v > a <;> simp [ha, hgt, hv]

theorem foldl_updateLast_eq (ts : List (Option Int)) :
    ∀ acc : Option Int, acc ≠ some 0 →
      List.foldl updateLast acc ts = omax acc (listMax (nzList ts)) := by
  induction ts with
  | nil =>
    intro acc h
    cases acc <;> simp [omax, listMax, nzList]
  | cons t ts ih =>
    intro acc h
    simp only [List.foldl_cons]
    rw [ih (updateLast acc t) (updateLast_ne_zero acc t h)]
    cases t with
    | none =>
      rw [updateLast_none_ts, nzList_cons_none]
    | some v =>
      by_cases hv : v = 0
      · subst hv
        rw [updateLast_zero, nzList_cons_some]
        simp
      · rw [nzList_cons_some, if_pos hv, listMax_cons, ← omax_assoc]
        congr 1
        cases acc with
        | none => simp [updateLast, hv, omax]
        | some a =>
          have ha : a ≠ 0 := fun he => h (by rw [he])
          simp only [updateLast, if_pos hv, if_neg ha]
          by_cases hgt : v > a
          · simp only [if_pos hgt, omax]
            congr 1
            exact (max_eq_right (le_of_lt hgt)).symm
          · simp only [if_neg hgt, omax]
            congr 1
            exact (max_eq_left (not_lt.mp hgt)).symm

theorem foldl_max_mem (l : List Int) :
    ∀ v : Int, l.foldl max v = v ∨ l.foldl max v ∈ l := by
  induction l with
  | nil => intro v; left; rfl
  | cons a l ih =>
    intro v
    simp only [List.foldl_cons]
    rcases ih (max v a) with h | h
    · rcases max_choice v a with h2 | h2
      · left; rw [h, h2]
      · right; rw [h, h2]; exact List.mem_cons_self a l
    · right; exact List.mem_cons_of_mem a h

theorem listMax_mem (l : List Int) (m : Int) (h : listMax l = some m) :
    m ∈ l := by
  match l with
  | [] => exact absurd h (by simp [listMax])
  | a :: l =>
    simp only [listMax, Option.some.injEq] at h
    rcases foldl_max_mem l a with h2 | h2
    · rw [← h, h2]; exact List.mem_cons_self a l
    · rw [← h]; exact List.mem_cons_of_mem a h2

theorem nzList_ne_zero (ts : List (Option Int)) (v : Int)
    (h : v ∈ nzList ts) : v ≠ 0 := by
  have := List.of_mem_filter h
  simpa using this

/-! ### The aggregate entry of one key, in closed form -/

theorem mapGet_computeCounts (parse : String → Option Int) (ty : String)
    (regs : List Registration) (k : String) :
    mapGet (computeCounts parse ty regs) k
      = List.foldl (stepK parse) none (regs.filter (matchesKey ty k)) := by
  have := mapGet_foldl parse ty regs k []
  simpa [computeCounts] using this

theorem entry_spec (parse : String → Option Int) (ty : String)
    (regs : List Registration) (k : String) (s : Stat)
    (h : mapGet (computeCounts parse ty regs) k = some s) :
    s.count = (regs.filter (matchesKey ty k)).length
    ∧ s.last
        = listMax (nzList ((regs.filter (matchesKey ty k)).map
            (fun r => normalizeTs parse r.createdAt))) := by
  rw [mapGet_computeCounts] at h
  cases hl : regs.filter (matchesKey ty k) with
  | nil =>
    rw [hl] at h
    exact absurd h (by simp)
  | cons r rest =>
    rw [hl] at h
    rw [foldl_stepK_none parse (r :: rest) (by simp)] at h
    injection h with h
    rw [← h]
    refine ⟨rfl, ?_⟩
    show List.foldl updateLast none _ = _
    rw [foldl_updateLast_eq _ none (by simp)]
    rfl

theorem mapGet_eq_none_iff (parse : String → Option Int) (ty : String)
    (regs : List Registration) (k : String) :
    mapGet (computeCounts parse ty regs) k = none
      ↔ regs.filter (matchesKey ty k) = [] := by
  rw [mapGet_computeCounts]
  cases hl : regs.filter (matchesKey ty k) with
  | nil => simp
  | cons r rest =>
    rw [foldl_stepK_none parse (r :: rest) (by simp)]
    simp

theorem lookup_last_ne_zero (parse : String → Option Int) (ty : String)
    (regs : List Registration) (k : String) :
    (lookupStat (computeCounts parse ty regs) k).last ≠ some 0 := by
  cases h : mapGet (computeCounts parse ty regs) k with
  | none => simp [lookupStat, h, defaultStat]
  | some s =>
    have hs := (entry_spec parse ty regs k s h).2
    simp only [lookupStat, h, Option.getD_some]
    rw [hs]
    intro he
    exact nzList_ne_zero _ 0 (listMax_mem _ 0 he) rfl

/-! ### Presenter bounds -/

theorem le_foldl_max_init (l : List Nat) : ∀ a : Nat, a ≤ l.foldl Nat.max a := by
  induction l with
  | nil => intro a; exact le_refl a
  | cons b l ih =>
    intro a
    exact le_trans (Nat.le_max_left a b) (ih (Nat.max a b))

theorem mem_le_foldl_max (l : List Nat) :
    ∀ a x : Nat, x ∈ l → x ≤ l.foldl Nat.max a := by
  induction l with
  | nil => intro a x hx; simp at hx
  | cons b l ih =>
    intro a x hx
    rcases List.mem_cons.mp hx with h | h
    · subst h
      exact le_trans (Nat.le_max_right a x) (le_foldl_max_init l (Nat.max a x))
    · exact ih (Nat.max a b) x h

theorem mapGet_count_mem (m : StatMap) (k : String) (s : Stat) :
    mapGet m k = some s → s.count ∈ m.map (fun p => p.2.count) := by
  induction m with
  | nil => intro h; simp [mapGet] at h
  | cons kv rest ih =>
    intro h
    simp only [mapGet] at h
    by_cases hk : kv.1 = k
    · rw [if_pos hk] at h
      injection h with h
      subst h
      simp
    · rw [if_neg hk] at h
      simp [ih h]

theorem one_le_maxCount (m : StatMap) : 1 ≤ maxCount m :=
  le_foldl_max_init _ 1

theorem count_le_maxCount (m : StatMap) (k : String) :
    (lookupStat m k).count ≤ maxCount m := by
  cases h : mapGet m k with
  | none => simp [lookupStat, h, defaultStat]
  | some s =>
    simp only [lookupStat, h, Option.getD_some]
    exact mem_le_foldl_max _ 1 s.count (mapGet_count_mem m k s h)

theorem jsRound100_le (c m : Nat) (hc : c ≤ m) (hm : 1 ≤ m) :
    jsRound100 c m ≤ 100 := by
  unfold jsRound100
  have h1 : 200 * c + m < 101 * (2 * m) := by omega
  have h2 := (Nat.div_lt_iff_lt_mul (by omega : 0 < 2 * m)).mpr h1
  omega

/-! ### Monotonicity of `updateLast` -/

theorem optLe_refl (l : Option Int) : optLe l l = true := by
  cases l <;> simp [optLe]

theorem optLe_updateLast (l t : Option Int) (hl : l ≠ some 0) :
    optLe l (updateLast l t) = true := by
  cases t with
  | none => rw [updateLast_none_ts]; exact optLe_refl l
  | some v =>
    by_cases hv : v = 0
    · subst hv; rw [updateLast_zero]; exact optLe_refl l
    · cases l with
      | none => simp [updateLast, optLe, hv]
      | some a =>
        have ha : a ≠ 0 := fun he => hl (by rw [he])
        simp only [updateLast, if_pos hv, if_neg ha]
        by_cases hgt : v > a
        · simp [hgt, optLe, le_of_lt hgt]
        · simp [hgt, optLe]

/-! ### Appending one event -/

theorem computeCounts_append (parse : String → Option Int) (ty : String)
    (regs : List Registration) (r : Registration) :
    computeCounts parse ty (regs ++ [r])
      = step parse ty (computeCounts parse ty regs) r := by
  simp [computeCounts, List.foldl_append]

theorem lookup_append_match (parse : String → Option Int) (ty : String)
    (regs : List Registration) (r : Registration) (h : r.type = ty) :
    lookupStat (computeCounts parse ty (regs ++ [r])) (coerceId r.itemId)
      = stepStat parse
          (lookupStat (computeCounts parse ty regs) (coerceId r.itemId)) r := by
  rw [computeCounts_append, step_of_match _ _ _ _ h]
  simp [lookupStat, mapGet_mapSet_self]

/-! ### Claim theorems: the Aggregator -/

/-- C1 (amended): the sum of `count` over all entries of the Aggregator's
output equals the number of events of the target kind — all of them,
because an event with a missing `itemId` is not ignored: `String(itemId)`
coerces it to the key `"undefined"` and it is counted there. -/
theorem sum_counts_eq_kind_count (parse : String → Option Int) (ty : String)
    (regs : List Registration) :
    sumCounts (computeCounts parse ty regs)
      = (regs.filter (fun r => r.type == ty)).length := by
  have := sumCounts_foldl parse ty regs []
  simpa [computeCounts, sumCounts] using this

/-- C1 counterexample: a single event of the target kind with a missing
`entityId` yields total count `1`, yet the number of events of that kind
with a non-absent `entityId` is `0` — the event is counted (under the key
`"undefined"`), not ignored, refuting the claimed equality. -/
theorem sum_counts_missing_id_counted :
    sumCounts (computeCounts parse0 "course" [regMissing]) = 1
    ∧ ([regMissing].filter (fun r => r.type == "course" && r.itemId.isSome)).length = 0
    ∧ sumCounts (computeCounts parse0 "course" [regMissing])
        ≠ ([regMissing].filter
            (fun r => r.type == "course" && r.itemId.isSome)).length :=
  ⟨rfl, rfl, by decide⟩

/-- C2 (amended): every entry of the Aggregator's output has `count` equal
to the number of events whose kind matches and whose `String()`-coerced
`entityId` equals the entry's key (a missing `entityId` coerces to
`"undefined"`), and `last` equal to the maximum normalized `createdAt` over
those events, excluding both unparseable timestamps and timestamps that
normalize to epoch `0` (the code's truthiness guard drops the latter). -/
theorem entry_count_and_last (parse : String → Option Int) (ty : String)
    (regs : List Registration) (k : String) (s : Stat)
    (h : mapGet (computeCounts parse ty regs) k = some s) :
    s.count = (regs.filter (matchesKey ty k)).length
    ∧ s.last
        = listMax (nzList ((regs.filter (matchesKey ty k)).map
            (fun r => normalizeTs parse r.createdAt))) :=
  entry_spec parse ty regs k s h

/-- Witness for C2's theorem at a concrete input. -/
theorem entry_count_and_last_inst :
    (⟨1, some 5⟩ : Stat).count
      = ([regA5].filter (matchesKey "course" "A")).length
    ∧ (⟨1, some 5⟩ : Stat).last
        = listMax (nzList (([regA5].filter (matchesKey "course" "A")).map
            (fun r => normalizeTs parse0 r.createdAt))) :=
  entry_count_and_last parse0 "course" [regA5] "A" ⟨1, some 5⟩ rfl

/-- C2 counterexample: one event with a missing `entityId` and a string
`createdAt` that parses to epoch `0`.  The output contains the entity key
`"undefined"` with `count = 1` although no event's `entityId` matches it,
and its `lastTimestamp` is absent although the maximum normalized
`createdAt` among its events is `0` — refuting both equalities of the
claim as stated. -/
theorem entry_missing_id_and_zero_epoch :
    mapGet (computeCounts parseEpoch "course" [regZeroTs]) "undefined"
      = some ⟨1, none⟩
    ∧ regZeroTs.itemId = none
    ∧ normalizeTs parseEpoch regZeroTs.createdAt = some 0 :=
  ⟨rfl, rfl, rfl⟩

/-- C3: the Aggregator normalizes a structured epoch-seconds timestamp to
epoch milliseconds, hands a non-empty string to the date parser, treats an
absent or unparseable `createdAt` (e.g. the empty string) as absent, and is
a total function (it never throws); a matching event increments `count` by
exactly 1 regardless of timestamp validity, and an event whose timestamp
normalizes to absent leaves `lastTimestamp` unchanged. -/
theorem timestamp_normalization_and_counting
    (parse : String → Option Int) (sec : Int) (hsec : sec ≠ 0)
    (t : String) (ht : t ≠ "") (ty : String)
    (regs : List Registration) (r : Registration) (hty : r.type = ty) :
    normalizeTs parse (CreatedAt.structured sec) = some (sec * 1000)
    ∧ normalizeTs parse (CreatedAt.str t) = parse t
    ∧ normalizeTs parse CreatedAt.absent = none
    ∧ normalizeTs parse (CreatedAt.str "") = none
    ∧ (lookupStat (computeCounts parse ty (regs ++ [r])) (coerceId r.itemId)).count
        = (lookupStat (computeCounts parse ty regs) (coerceId r.itemId)).count + 1
    ∧ (normalizeTs parse r.createdAt = none →
        (lookupStat (computeCounts parse ty (regs ++ [r])) (coerceId r.itemId)).last
          = (lookupStat (computeCounts parse ty regs) (coerceId r.itemId)).last) := by
  refine ⟨by simp [normalizeTs, hsec], by simp [normalizeTs, ht], rfl, rfl, ?_, ?_⟩
  · rw [lookup_append_match parse ty regs r hty]
    rfl
  · intro hnone
    rw [lookup_append_match parse ty regs r hty]
    show updateLast _ (normalizeTs parse r.createdAt) = _
    rw [hnone, updateLast_none_ts]

/-- Witness for C3's theorem at a concrete input. -/
theorem timestamp_normalization_and_counting_inst :
    normalizeTs parse0 (CreatedAt.structured 1) = some (1 * 1000)
    ∧ normalizeTs parse0 (CreatedAt.str "x") = parse0 "x"
    ∧ normalizeTs parse0 CreatedAt.absent = none
    ∧ normalizeTs parse0 (CreatedAt.str "") = none
    ∧ (lookupStat (computeCounts parse0 "course" ([] ++ [regA5]))
          (coerceId regA5.itemId)).count
        = (lookupStat (computeCounts parse0 "course" [])
            (coerceId regA5.itemId)).count + 1
    ∧ (normalizeTs parse0 regA5.createdAt = none →
        (lookupStat (computeCounts parse0 "course" ([] ++ [regA5]))
            (coerceId regA5.itemId)).last
          = (lookupStat (computeCounts parse0 "course" [])
              (coerceId regA5.itemId)).last) :=
  timestamp_normalization_and_counting parse0 1 (by decide) "x" (by decide)
    "course" [] regA5 rfl

/-- C4: the Presenter's percentage
`Math.round((count / max(1, maxCount)) * 100)` is always at most 100 (and
is a natural number, hence at least 0), and on an empty registration list
every entity's percentage is 0 — the floor of 1 prevents division by
zero. -/
theorem percentage_bounds (parse : String → Option Int) (ty : String)
    (regs : List Registration) (k : String) :
    pct (computeCounts parse ty regs) k ≤ 100
    ∧ pct (computeCounts parse ty []) k = 0 := by
  constructor
  · exact jsRound100_le _ _ (count_le_maxCount _ k) (one_le_maxCount _)
  · simp [pct, computeCounts, lookupStat, mapGet, maxCount, jsRound100, defaultStat]

/-- C5 (amended): a key appears in the Aggregator's output iff some event
matches it under `String()` coercion of `entityId` (so the key
`"undefined"` appears exactly when some matching event has its `entityId`
missing), and a key is absent iff the caller-side defaulted lookup yields
`{count: 0, lastTimestamp: absent}`. -/
theorem output_membership (parse : String → Option Int) (ty : String)
    (regs : List Registration) (k : String) :
    ((mapGet (computeCounts parse ty regs) k).isSome
      ↔ ∃ r ∈ regs, r.type = ty ∧ coerceId r.itemId = k)
    ∧ (mapGet (computeCounts parse ty regs) k = none
      ↔ lookupStat (computeCounts parse ty regs) k = defaultStat) := by
  have hmk : ∀ r : Registration,
      matchesKey ty k r = true ↔ (r.type = ty ∧ coerceId r.itemId = k) := by
    intro r; simp [matchesKey]
  constructor
  · cases hm : mapGet (computeCounts parse ty regs) k with
    | none =>
      simp only [Option.isSome_none, Bool.false_eq_true, false_iff]
      have hf := (mapGet_eq_none_iff parse ty regs k).mp hm
      rintro ⟨r, hr, hty, hk⟩
      have : r ∈ regs.filter (matchesKey ty k) :=
        List.mem_filter.mpr ⟨hr, (hmk r).mpr ⟨hty, hk⟩⟩
      rw [hf] at this
      simp at this
    | some s =>
      simp only [Option.isSome_some, true_iff]
      have hf : regs.filter (matchesKey ty k) ≠ [] := by
        intro he
        have := (mapGet_eq_none_iff parse ty regs k).mpr he
        rw [hm] at this
        exact absurd this (by simp)
      cases hc : regs.filter (matchesKey ty k) with
      | nil => exact absurd hc hf
      | cons r rest =>
        have hrmem : r ∈ regs.filter (matchesKey ty k) := by
          rw [hc]; exact List.mem_cons_self r rest
        have hmem := List.mem_filter.mp hrmem
        exact ⟨r, hmem.1, (hmk r).mp hmem.2⟩
  · cases hm : mapGet (computeCounts parse ty regs) k with
    | none => simp [lookupStat, hm]
    | some s =>
      simp only [lookupStat, hm, Option.getD_some]
      constructor
      · intro h; exact absurd h (by simp)
      · intro hs
        exfalso
        have hc := (entry_spec parse ty regs k s hm).1
        have hf : regs.filter (matchesKey ty k) ≠ [] := by
          intro he
          have := (mapGet_eq_none_iff parse ty regs k).mpr he
          rw [hm] at this
          exact absurd this (by simp)
        cases hcc : regs.filter (matchesKey ty k) with
        | nil => exact hf hcc
        | cons r rest =>
          rw [hcc, hs] at hc
          simp [defaultStat] at hc

/-- C5 counterexample: one matching event with a missing `entityId`
produces the output entry `"undefined" ↦ {count: 1, last: absent}`,
although no event's `entityId` equals `"undefined"` — an entity with zero
matching events appears in the output, refuting the claim as stated. -/
theorem output_contains_undefined_key :
    mapGet (computeCounts parse0 "course" [regMissing]) "undefined"
      = some ⟨1, none⟩
    ∧ regMissing.itemId ≠ some "undefined"
    ∧ regMissing.itemId = none :=
  ⟨rfl, by decide, rfl⟩

/-- C8: appending one event matching an entity never decreases that
entity's count (it increases by exactly one) and only increases or leaves
unchanged its `lastTimestamp`. -/
theorem append_matching_monotone (parse : String → Option Int) (ty : String)
    (regs : List Registration) (r : Registration) (k : String)
    (hty : r.type = ty) (hk : coerceId r.itemId = k) :
    (lookupStat (computeCounts parse ty regs) k).count
      ≤ (lookupStat (computeCounts parse ty (regs ++ [r])) k).count
    ∧ optLe (lookupStat (computeCounts parse ty regs) k).last
        (lookupStat (computeCounts parse ty (regs ++ [r])) k).last = true := by
  subst hk
  rw [lookup_append_match parse ty regs r hty]
  constructor
  · exact Nat.le_succ _
  · exact optLe_updateLast _ _ (lookup_last_ne_zero parse ty regs _)

/-- Witness for C8's theorem at a concrete input. -/
theorem append_matching_monotone_inst :
    (lookupStat (computeCounts parse0 "course" [regA5]) "A").count
      ≤ (lookupStat (computeCounts parse0 "course" ([regA5] ++ [regA3])) "A").count
    ∧ optLe (lookupStat (computeCounts parse0 "course" [regA5]) "A").last
        (lookupStat (computeCounts parse0 "course" ([regA5] ++ [regA3])) "A").last
        = true :=
  append_matching_monotone parse0 "course" [regA5] regA3 "A" rfl rfl

/-- C9: both presenter outputs — the chart series and the per-entity list
rows — are produced by mapping over the Entity Catalog, so their sequence
of names is exactly the catalog's sequence of titles in the catalog's
existing order; no re-sorting by count occurs. -/
theorem presenter_order (counts : StatMap) (mc : Nat) (catalog : List Entity) :
    (courseData counts catalog).map ChartRow.name = catalog.map Entity.title
    ∧ (renderRows counts mc catalog).map Prod.fst = catalog.map Entity.title := by
  constructor <;> simp [courseData, renderRows]

/-- C10: no entry of the Aggregator's output ever has `lastTimestamp`
equal to epoch `0`; a numeric `createdAt` of `0` and a structured
timestamp with `seconds = 0` both normalize to absent, and even a
successfully parsed normalized value `0` is dropped by the truthiness
guard of the `lastTimestamp` update. -/
theorem zero_epoch_treated_absent (parse : String → Option Int) (ty : String)
    (regs : List Registration) (k : String) (s : Stat)
    (h : mapGet (computeCounts parse ty regs) k = some s) :
    s.last ≠ some 0
    ∧ normalizeTs parse (CreatedAt.num 0) = none
    ∧ normalizeTs parse (CreatedAt.structured 0) = none
    ∧ ∀ l : Option Int, updateLast l (some 0) = l := by
  refine ⟨?_, by simp [normalizeTs], by simp [normalizeTs], updateLast_zero⟩
  have hz := lookup_last_ne_zero parse ty regs k
  simp only [lookupStat, h, Option.getD_some] at hz
  exact hz

/-- Witness for C10's theorem at a concrete input. -/
theorem zero_epoch_treated_absent_inst :
    (⟨1, none⟩ : Stat).last ≠ some 0
    ∧ normalizeTs parse0 (CreatedAt.num 0) = none
    ∧ normalizeTs parse0 (CreatedAt.structured 0) = none
    ∧ ∀ l : Option Int, updateLast l (some 0) = l :=
  zero_epoch_treated_absent parse0 "course" [regA0] "A" ⟨1, none⟩ rfl

/-! ### URL round-trip lemmas for the gated book-seat flow -/

theorem unreserved_ne (c : Char) (h : unreservedChar c = true) :
    c ≠ '%' ∧ c ≠ '+' ∧ c ≠ '&' ∧ c ≠ '=' ∧ c ≠ '?' := by
  refine ⟨?_, ?_, ?_, ?_, ?_⟩ <;>
    (intro he; rw [he] at h; exact absurd h (by decide))

theorem decodePercent_cons_plain (c : Char) (rest : List Char)
    (h1 : c ≠ '%') (h2 : c ≠ '+') :
    decodePercent (c :: rest) = c :: decodePercent rest := by
  rw [decodePercent.eq_def]
  split
  · rename_i heq; exact absurd heq (by simp)
  · rename_i heq; injection heq with ha _; exact absurd ha h1
  · rename_i heq; injection heq with ha _; exact absurd ha h2
  · rename_i heq; injection heq with ha hb; rw [ha, hb]

theorem decodePercent_unreserved (l : List Char)
    (h : ∀ c ∈ l, unreservedChar c = true) : decodePercent l = l := by
  induction l with
  | nil => rfl
  | cons c rest ih =>
    obtain ⟨h1, h2, -⟩ := unreserved_ne c (h c (List.mem_cons_self c rest))
    rw [decodePercent_cons_plain c rest h1 h2,
      ih (fun x hx => h x (List.mem_cons_of_mem c hx))]

theorem encodeList_append (l1 l2 : List Char) :
    encodeList (l1 ++ l2) = encodeList l1 ++ encodeList l2 := by
  induction l1 with
  | nil => rfl
  | cons c l1 ih => simp [encodeList, ih]

theorem encodeList_unreserved (l : List Char)
    (h : ∀ c ∈ l, unreservedChar c = true) : encodeList l = l := by
  induction l with
  | nil => rfl
  | cons c rest ih =>
    have hc := h c (List.mem_cons_self c rest)
    simp only [encodeList, encChar, if_pos hc]
    rw [ih (fun x hx => h x (List.mem_cons_of_mem c hx))]
    rfl

theorem breakOn_append (sep : Char) (l1 l2 : List Char)
    (h : ∀ c ∈ l1, ¬ c = sep) :
    breakOn sep (l1 ++ sep :: l2) = (l1, some l2) := by
  induction l1 with
  | nil => simp [breakOn]
  | cons c l1 ih =>
    have hc := h c (List.mem_cons_self c l1)
    simp only [List.cons_append, breakOn, if_neg hc, List.append_eq]
    rw [ih (fun x hx => h x (List.mem_cons_of_mem c hx))]

theorem splitSep_no_sep (sep : Char) (l : List Char)
    (h : ∀ c ∈ l, ¬ c = sep) : splitSep sep l = [l] := by
  induction l with
  | nil => rfl
  | cons c rest ih =>
    have hc := h c (List.mem_cons_self c rest)
    simp only [splitSep, ih (fun x hx => h x (List.mem_cons_of_mem c hx)),
      if_neg hc]

theorem decodeBookPathEq (l : List Char) :
    decodePercent (("%2Fwebinars%3Fbook%3D").data ++ l)
      = ("/webinars?book=").data ++ decodePercent l := rfl

theorem encodeBookPathEq :
    encodeList (("/webinars?book=").data) = ("%2Fwebinars%3Fbook%3D").data := by
  decide

theorem searchOf_bookHref (id : String)
    (h : ∀ c ∈ id.data, unreservedChar c = true) :
    searchOf (webinarBookHref false id)
      = ("redirect=%2Fwebinars%3Fbook%3D").data ++ id.data := by
  show ((breakOn '?' (webinarBookHref false id).data).2).getD [] = _
  have henc : (encodeURIComponent ("/webinars?book=" ++ id)).data
      = ("%2Fwebinars%3Fbook%3D").data ++ id.data := by
    show encodeList (("/webinars?book=" ++ id).data) = _
    rw [String.data_append, encodeList_append, encodeBookPathEq,
      encodeList_unreserved id.data h]
  have hdata : (webinarBookHref false id).data
      = ("/login").data
          ++ '?' :: (("redirect=%2Fwebinars%3Fbook%3D").data ++ id.data) := by
    show ("/login?redirect=" ++ encodeURIComponent ("/webinars?book=" ++ id)).data = _
    rw [String.data_append, henc]
    rfl
  rw [hdata, breakOn_append '?' _ _ (by decide)]
  rfl

theorem getParam_redirect (id : String)
    (h : ∀ c ∈ id.data, unreservedChar c = true) :
    getParam (searchOf (webinarBookHref false id)) (("redirect").data)
      = some (("/webinars?book=" ++ id).data) := by
  rw [searchOf_bookHref id h]
  have hamp : ∀ c ∈ ("redirect=%2Fwebinars%3Fbook%3D").data ++ id.data,
      ¬ c = '&' := by
    intro c hc
    rcases List.mem_append.mp hc with hc | hc
    · exact (by decide :
        ∀ c ∈ ("redirect=%2Fwebinars%3Fbook%3D").data, ¬ c = '&') c hc
    · exact (unreserved_ne c (h c hc)).2.2.1
  have hkv : paramKV (("redirect=%2Fwebinars%3Fbook%3D").data ++ id.data)
      = (("redirect").data, ("%2Fwebinars%3Fbook%3D").data ++ id.data) := by
    show paramKV (("redirect").data
      ++ '=' :: (("%2Fwebinars%3Fbook%3D").data ++ id.data)) = _
    unfold paramKV
    rw [breakOn_append '=' _ _ (by decide)]
  unfold getParam
  rw [splitSep_no_sep '&' _ hamp]
  simp only [List.findSome?, hkv]
  rw [decodePercent_unreserved (("redirect").data) (by decide),
    decodeBookPathEq, decodePercent_unreserved id.data h,
    ← String.data_append]
  simp

/-! ### Claim theorems: the gated book-seat flow -/

/-- C6: with no session, the book-seat link for entity `id` targets the
login page with a `redirect` continuation that decodes to
`/webinars?book=ID` (it references the entity's id), and a successful
sign-in navigates to exactly that booking path, which is not the generic
home path `/`.  The hypothesis restricts the id to URL-unreserved
characters (such as the digits of `42`), which is what
`encodeURIComponent` leaves intact. -/
theorem book_seat_redirect (id : String)
    (h : ∀ c ∈ id.data, unreservedChar c = true) :
    getParam (searchOf (webinarBookHref false id)) (("redirect").data)
      = some (("/webinars?book=" ++ id).data)
    ∧ handleLogin (Except.ok ()) (searchOf (webinarBookHref false id))
        = AuthOutcome.navigated ("/webinars?book=" ++ id)
    ∧ "/webinars?book=" ++ id ≠ "/" := by
  have hg := getParam_redirect id h
  refine ⟨hg, ?_, ?_⟩
  · have hne : (("/webinars?book=" ++ id)).data ≠ [] := by
      rw [String.data_append]
      simp
    simp only [handleLogin, hg, if_neg hne]
  · intro he
    have hlen := congrArg String.length he
    rw [String.length_append] at hlen
    have h15 : ("/webinars?book=").length = 15 := rfl
    have h1 : ("/").length = 1 := rfl
    omega

/-- Witness for C6's theorem at the concrete entity id `42`. -/
theorem book_seat_redirect_inst :
    getParam (searchOf (webinarBookHref false "42")) (("redirect").data)
      = some (("/webinars?book=" ++ "42").data)
    ∧ handleLogin (Except.ok ()) (searchOf (webinarBookHref false "42"))
        = AuthOutcome.navigated ("/webinars?book=" ++ "42")
    ∧ "/webinars?book=" ++ "42" ≠ "/" :=
  book_seat_redirect "42" (by decide)

/-- C7 evidence: a failed sign-in on the login page escapes the handler
unhandled — `handleLogin` has no catch and the page has no error state, so
no failure is ever surfaced as `errorShown` — while `handleSignup` does
surface its failure message.  This contradicts the claim that every
invalid-credentials failure is displayed to the user. -/
theorem login_failure_not_surfaced :
    handleLogin (Except.error "auth/invalid-credential") []
      = AuthOutcome.unhandled "auth/invalid-credential"
    ∧ (∀ (e : String) (search : List Char) (msg : String),
        handleLogin (Except.error e) search ≠ AuthOutcome.errorShown msg)
    ∧ ∀ e : String, handleSignup (Except.error e) none none
        = AuthOutcome.errorShown e := by
  refine ⟨rfl, ?_, fun e => rfl⟩
  intro e search msg h
  simp [handleLogin] at h

end CAPujari
